import Mathlib

/-!
Verification of the message_producer repository (Go).
Shallow embedding of internal/generator/producer.go, internal/writer
(csv/parquet/kafka writers) and the sink fan-out in cmd/producer/main.go.
Monetary values use exact rationals: the shopspring decimal library keeps
exact arbitrary-precision decimals, rounding only in Div (16 fractional
digits, half away from zero) and in StringFixed (requested places, half
away from zero); both roundings are embedded explicitly below.
-/

namespace MessageProducer

/-- Rounding half away from zero to the nearest integer, the rounding mode
of shopspring decimal Round, DivRound and StringFixed. -/
def roundAway (q : ℚ) : ℤ :=
  if 0 ≤ q then ⌊q + 1/2⌋ else -⌊-q + 1/2⌋

/-- shopspring decimal Div: the quotient rounded (half away from zero) to
DivisionPrecision = 16 fractional digits. -/
def decDiv (a b : ℚ) : ℚ := (roundAway (a / b * 10^16) : ℚ) / 10^16

/-- The exact decimal value denoted by StringFixed(6) output, expressed in
micro-units: the string renders roundAway(q * 10^6) scaled by 10^-6. -/
def stringFixed6Micro (q : ℚ) : ℤ := roundAway (q * 10^6)

/-- The fixed bet-amount menu of NewProducer (producer.go lines 36-43);
decimal.NewFromFloat yields the shortest round-tripping decimal, which is
exact for these constants. -/
def betAmounts : Fin 6 → ℚ := ![10, 50, 100, 200, 500, 1000]

/-- The fixed win-multiplier menu of NewProducer (producer.go line 44):
0, 0, 0.5, 0.8, 1.0, 1.5, 2.0, 3.0, 5.0, 10.0 — exact as rationals. -/
def winMultipliers : Fin 10 → ℚ := ![0, 0, 1/2, 4/5, 1, 3/2, 2, 3, 5, 10]

/-- Currency scaling of generateTransaction (producer.go lines 227-235):
BTC divides by 10000, ETH by 1000 (decimal Div), JPY multiplies by 100,
CNY by 7, anything else is unscaled. -/
def scaleBet (code : String) (amount : ℚ) : ℚ :=
  if code = "BTC" then decDiv amount 10000
  else if code = "ETH" then decDiv amount 1000
  else if code = "JPY" then amount * 100
  else if code = "CNY" then amount * 7
  else amount

/-- Bet amount of a generated transaction, given the currency code and the
index chosen from the bet-amount menu (producer.go lines 224-235). -/
def genBetAmount (code : String) (i : Fin 6) : ℚ := scaleBet code (betAmounts i)

/-- Win amount of a generated transaction: bet amount times the chosen win
multiplier (producer.go lines 238-239); decimal Mul is exact. -/
def genWinAmount (code : String) (i : Fin 6) (m : Fin 10) : ℚ :=
  genBetAmount code i * winMultipliers m

/-- Win-loss of a generated transaction: win amount minus bet amount
(producer.go line 240); decimal Sub is exact. -/
def genWinLoss (code : String) (i : Fin 6) (m : Fin 10) : ℚ :=
  genWinAmount code i m - genBetAmount code i

lemma roundAway_intCast (z : ℤ) : roundAway (z : ℚ) = z := by
  unfold roundAway
  split
  · rw [show ((z : ℚ) + 1/2) = ((z : ℤ) : ℚ) + (1/2 : ℚ) by norm_num]
    rw [Int.floor_int_add]
    norm_num
  · rw [show (-(z : ℚ) + 1/2) = ((-z : ℤ) : ℚ) + (1/2 : ℚ) by push_cast; ring]
    rw [Int.floor_int_add]
    have : ⌊(1/2 : ℚ)⌋ = 0 := by norm_num
    omega

/-- A rational is representable at 6 decimal places when scaling by one
million lands on an integer; StringFixed(6) is then exact. -/
def MicroInt (q : ℚ) : Prop := ∃ z : ℤ, q * 10^6 = z

lemma stringFixed6Micro_eq (q : ℚ) (z : ℤ) (h : q * 10^6 = z) :
    stringFixed6Micro q = z := by
  unfold stringFixed6Micro
  rw [h, roundAway_intCast]

/-- If the two operands already have at most 6 fractional decimal digits,
rounding each side to 6 places commutes with subtraction. -/
lemma stringFixed6Micro_sub (a b : ℚ) (ha : MicroInt a) (hb : MicroInt b) :
    stringFixed6Micro (a - b) = stringFixed6Micro a - stringFixed6Micro b := by
  obtain ⟨za, hza⟩ := ha
  obtain ⟨zb, hzb⟩ := hb
  have hab : (a - b) * 10^6 = ((za - zb : ℤ) : ℚ) := by
    push_cast
    rw [sub_mul, hza, hzb]
  rw [stringFixed6Micro_eq a za hza, stringFixed6Micro_eq b zb hzb,
    stringFixed6Micro_eq (a - b) (za - zb) hab]

/-- When the quotient is already exact at 16 decimal places, shopspring Div
returns the exact quotient. -/
lemma decDiv_exact (a b : ℚ) (z : ℤ) (h : a / b * 10^16 = z) :
    decDiv a b = a / b := by
  unfold decDiv
  rw [h, roundAway_intCast, ← h]
  exact mul_div_cancel_right₀ _ (by norm_num)

/-- Every entry of the bet-amount menu is an integer number of units. -/
lemma betAmounts_int (i : Fin 6) : ∃ z : ℤ, betAmounts i = z := by
  fin_cases i
  · exact ⟨10, by norm_num [betAmounts]⟩
  · exact ⟨50, by norm_num [betAmounts]⟩
  · exact ⟨100, by norm_num [betAmounts]⟩
  · exact ⟨200, by norm_num [betAmounts]⟩
  · exact ⟨500, by norm_num [betAmounts]⟩
  · exact ⟨1000, by norm_num [betAmounts]⟩

/-- Every win multiplier has at most one fractional decimal digit. -/
lemma winMultipliers_tenth_int (m : Fin 10) : ∃ z : ℤ, winMultipliers m * 10 = z := by
  fin_cases m
  · exact ⟨0, by norm_num [winMultipliers]⟩
  · exact ⟨0, by norm_num [winMultipliers]⟩
  · exact ⟨5, by norm_num [winMultipliers]⟩
  · exact ⟨8, by norm_num [winMultipliers]⟩
  · exact ⟨10, by norm_num [winMultipliers]⟩
  · exact ⟨15, by norm_num [winMultipliers]⟩
  · exact ⟨20, by norm_num [winMultipliers]⟩
  · exact ⟨30, by norm_num [winMultipliers]⟩
  · exact ⟨50, by norm_num [winMultipliers]⟩
  · exact ⟨100, by norm_num [winMultipliers]⟩

/-- The two crypto divisions of the scaling rule are exact on the
bet-amount menu, so shopspring Div introduces no rounding there. -/
lemma decDiv_menu_btc (i : Fin 6) : decDiv (betAmounts i) 10000 = betAmounts i / 10000 := by
  obtain ⟨k, hk⟩ := betAmounts_int i
  exact decDiv_exact _ _ (k * 10^12) (by rw [hk]; push_cast; ring)

lemma decDiv_menu_eth (i : Fin 6) : decDiv (betAmounts i) 1000 = betAmounts i / 1000 := by
  obtain ⟨k, hk⟩ := betAmounts_int i
  exact decDiv_exact _ _ (k * 10^13) (by rw [hk]; push_cast; ring)

/-- Every generated bet amount lands on an integer multiple of 1/10^4:
the worst case is the BTC branch, an integer menu value divided by 10^4. -/
lemma genBetAmount_tenThousandth_int (code : String) (i : Fin 6) :
    ∃ z : ℤ, genBetAmount code i * 10^4 = z := by
  obtain ⟨k, hk⟩ := betAmounts_int i
  unfold genBetAmount scaleBet
  split
  · rw [decDiv_menu_btc i, hk]
    refine ⟨k, ?_⟩
    rw [div_mul_eq_mul_div, mul_div_assoc]
    norm_num
  split
  · rw [decDiv_menu_eth i, hk]
    refine ⟨k * 10, ?_⟩
    rw [div_mul_eq_mul_div, mul_div_assoc]
    push_cast
    norm_num
  split
  · exact ⟨k * 10^6, by rw [hk]; push_cast; ring⟩
  split
  · exact ⟨k * 7 * 10^4, by rw [hk]; push_cast; ring⟩
  · exact ⟨k * 10^4, by rw [hk]; push_cast; ring⟩

lemma genBetAmount_microInt (code : String) (i : Fin 6) :
    MicroInt (genBetAmount code i) := by
  obtain ⟨z, hz⟩ := genBetAmount_tenThousandth_int code i
  exact ⟨z * 10^2, by push_cast; rw [← hz]; ring⟩

lemma genWinAmount_microInt (code : String) (i : Fin 6) (m : Fin 10) :
    MicroInt (genWinAmount code i m) := by
  obtain ⟨z, hz⟩ := genBetAmount_tenThousandth_int code i
  obtain ⟨w, hw⟩ := winMultipliers_tenth_int m
  refine ⟨z * w * 10, ?_⟩
  unfold genWinAmount
  push_cast
  rw [← hz, ← hw]
  ring

/-! Round and transaction identifiers (producer.go lines 242-246).
The printf verb %08d prints the decimal digits of a nonnegative number,
zero-padded on the left to width 8. A padded numeral is modelled as its
little-endian digit list with zeros appended up to length 8 (reversing a
string is injective, so string equality is digit-list equality). -/

/-- Digits of a %08d-formatted number, little-endian, zero-padded. -/
def pad8 (l : List ℕ) : List ℕ := l ++ List.replicate (8 - l.length) 0

/-- The numeral part of RoundID, from "ROUND-%08d" applied to seq/10; the
prefix ROUND- is a constant shared by every record. -/
def roundIdDigits (seq : ℕ) : List ℕ := pad8 (Nat.digits 10 (seq / 10))

/-- The sequence-number field of the internal ID "TXN-<date>-<seq>",
from %08d applied to the record's sequence number. -/
def txnIdSeqField (seq : ℕ) : List ℕ := pad8 (Nat.digits 10 seq)

lemma ofDigits_replicate_zero (b k : ℕ) : Nat.ofDigits b (List.replicate k 0) = 0 := by
  induction k with
  | zero => rfl
  | succ n ih => simp [List.replicate_succ, Nat.ofDigits_cons, ih]

lemma ofDigits_pad8 (l : List ℕ) : Nat.ofDigits 10 (pad8 l) = Nat.ofDigits 10 l := by
  unfold pad8
  rw [Nat.ofDigits_append, ofDigits_replicate_zero]
  simp

lemma pad8_digits_injective : Function.Injective (fun n => pad8 (Nat.digits 10 n)) := by
  intro a b h
  have ha := ofDigits_pad8 (Nat.digits 10 a)
  have hb := ofDigits_pad8 (Nat.digits 10 b)
  have := congrArg (Nat.ofDigits 10) h
  simp only at this
  rw [ha, hb, Nat.ofDigits_digits, Nat.ofDigits_digits] at this
  exact this

/-! The shared sequence counter (producer.go lines 21, 202-203): an
atomic.Int64 starting at zero; each generated record performs one
sequence.Add(1) and uses the returned value. Int64 addition wraps on the
64-bit twos-complement bit pattern, modelled as arithmetic mod 2^64 on
the unsigned pattern. -/

/-- One atomic Add(1) on the 64-bit counter bit pattern. -/
def seqNext (s : ℕ) : ℕ := (s + 1) % 2^64

/-- The successive values returned by n consecutive sequence.Add(1) calls
starting from counter state s: each record consumes exactly one. -/
def seqTrace (s : ℕ) : ℕ → List ℕ
  | 0 => []
  | n + 1 => seqNext s :: seqTrace (seqNext s) n

lemma seqTrace_eq (s n : ℕ) (h : s + n < 2^64) :
    seqTrace s n = (List.range n).map (fun i => s + 1 + i) := by
  induction n generalizing s with
  | zero => rfl
  | succ k ih =>
    have hs : seqNext s = s + 1 := by
      unfold seqNext
      exact Nat.mod_eq_of_lt (by omega)
    rw [seqTrace, hs, ih (s + 1) (by omega), List.range_succ_eq_map, List.map_cons,
      List.map_map]
    have h2 : ((fun i => s + 1 + i) ∘ Nat.succ) = (fun i => s + 1 + 1 + i) := by
      funext i
      simp only [Function.comp, Nat.succ_eq_add_one]
      omega
    rw [h2]

/-! Producer.Generate (producer.go lines 169-200): count indices are split
across workers; worker i covers [i * (count/workers), start + count/workers)
except the last worker, whose end is count. Each worker loops over its
range, checking the cancellation signal before every emission; after all
workers finish, the output channel is closed and nil is returned. -/

/-- Start index of worker i (producer.go line 175). -/
def workerStart (count workers i : ℕ) : ℕ := i * (count / workers)

/-- End index of worker i; the last worker handles the remainder
(producer.go lines 176-179). -/
def workerEnd (count workers i : ℕ) : ℕ :=
  if i = workers - 1 then count else workerStart count workers i + count / workers

/-- The indices emitted by worker i when it is never cancelled. -/
def workerRange (count workers i : ℕ) : List ℕ :=
  List.range' (workerStart count workers i)
    (workerEnd count workers i - workerStart count workers i)

/-- All indices emitted to the output channel in an uncancelled run, worker
by worker (the real workers interleave; the multiset of emissions is what
the claims are about). -/
def generateEmits (count workers : ℕ) : List ℕ :=
  (List.range workers).flatMap (workerRange count workers)

/-- Output-channel events of Producer.Generate: emissions of transactions,
then a single close of the channel. -/
inductive GenEvent where
  | emit (idx : ℕ)
  | closeOut
deriving DecidableEq

/-- The full event transcript of an uncancelled Generate run: the channel
close happens strictly after every worker has finished emitting
(wg.Wait precedes close(output), producer.go lines 197-198). -/
def generateEvents (count workers : ℕ) : List GenEvent :=
  (generateEmits count workers).map GenEvent.emit ++ [GenEvent.closeOut]

/-- A cancelled Generate run: worker i observes ctx.Done before iteration
number cancelAt i (counting from the start of its range) and stops there.
The second component is the value Generate returns: the code returns nil
unconditionally (producer.go line 199). -/
def generateRunCancelled (count workers : ℕ) (cancelAt : ℕ → ℕ) :
    List ℕ × Option String :=
  ((List.range workers).flatMap (fun i => (workerRange count workers i).take (cancelAt i)),
    none)

lemma flatMap_uniform_ranges (q : ℕ) :
    ∀ k : ℕ, (List.range k).flatMap (fun i => List.range' (i * q) q) = List.range' 0 (k * q) := by
  intro k
  induction k with
  | zero => simp
  | succ n ih =>
    rw [List.range_succ, List.flatMap_append, ih]
    simp only [List.flatMap_cons, List.flatMap_nil, List.append_nil]
    have := List.range'_append 0 (n * q) q 1
    simp only [one_mul, Nat.zero_add] at this
    rw [this]
    congr 1
    ring

lemma generateEmits_eq (count workers : ℕ) (h : 1 ≤ workers) :
    generateEmits count workers = List.range count := by
  unfold generateEmits
  obtain ⟨w, rfl⟩ : ∃ w, workers = w + 1 := ⟨workers - 1, by omega⟩
  rw [List.range_succ, List.flatMap_append]
  have hne : ∀ i ∈ List.range w, workerRange count (w + 1) i =
      List.range' (i * (count / (w + 1))) (count / (w + 1)) := by
    intro i hi
    have hiw : i < w := List.mem_range.mp hi
    have hlen : workerEnd count (w + 1) i - workerStart count (w + 1) i
        = count / (w + 1) := by
      unfold workerEnd workerStart
      rw [if_neg (by omega)]
      exact Nat.add_sub_cancel_left _ _
    unfold workerRange
    rw [hlen]
    rfl
  rw [List.flatMap_def, List.map_congr_left hne, ← List.flatMap_def]
  rw [flatMap_uniform_ranges]
  simp only [List.flatMap_cons, List.flatMap_nil, List.append_nil]
  have hlast : workerRange count (w + 1) w =
      List.range' (w * (count / (w + 1))) (count - w * (count / (w + 1))) := by
    unfold workerRange workerEnd workerStart
    rw [if_pos (by omega)]
  rw [hlast]
  have hle : w * (count / (w + 1)) ≤ count := by
    calc w * (count / (w + 1)) ≤ (w + 1) * (count / (w + 1)) := by
          exact Nat.mul_le_mul_right _ (by omega)
      _ = count / (w + 1) * (w + 1) := by ring
      _ ≤ count := Nat.div_mul_le_self count (w + 1)
  have := List.range'_append 0 (w * (count / (w + 1))) (count - w * (count / (w + 1))) 1
  simp only [one_mul, Nat.zero_add] at this
  rw [this]
  rw [List.range_eq_range']
  congr 1
  exact Nat.sub_add_cancel hle

/-! The Transaction record (internal/models/models.go): 17 fields; the Go
int fields are mathematical integers here (none approaches 64-bit range). -/

structure Transaction where
  id : String
  externalTransactionId : String
  vendorBetId : String
  roundId : String
  vendorId : ℤ
  vendorCode : String
  vendorLineId : ℤ
  gameCategoryId : ℤ
  houseId : ℤ
  masterAgentId : ℤ
  agentId : ℤ
  currencyId : ℤ
  currencyCode : String
  betAmount : String
  winAmount : String
  winLoss : String
  settledAt : String
deriving DecidableEq

/-- How a sink write loop terminates: the shared context is cancelled, or
the input channel is closed by the upstream. -/
inductive StreamEnd where
  | cancelled
  | closed
deriving DecidableEq

/-! CSVWriter (internal/writer, csv writer file): buffer of pending
transactions and an atomic row count. Underlying I/O failures are injected
through rowErr (csv.Writer.Write failing on the row at the given position
of the batch) and flushErr (csv.Writer.Flush leaving an error). -/

structure CSVWriterState where
  buffer : List Transaction
  count : ℕ
deriving DecidableEq

/-- CSVWriter.flush: nothing to do on an empty buffer; a row write error or
a flush error returns the error with buffer and count untouched; on success
the count grows by the batch size and the buffer is reset. -/
def csvFlush (rowErr : ℕ → Bool) (flushErr : Bool) (s : CSVWriterState) :
    CSVWriterState × Option String :=
  if s.buffer.length = 0 then (s, none)
  else if (List.range s.buffer.length).any rowErr then
    (s, some "failed to write CSV record")
  else if flushErr then (s, some "failed to flush CSV writer")
  else ({ buffer := [], count := s.count + s.buffer.length }, none)

/-- CSVWriter.Write: append each arriving transaction to the buffer, flush
once the buffer reaches bufferSize, and flush the remainder both when the
context is cancelled and when the input channel closes. -/
def csvWriteLoop (rowErr : ℕ → Bool) (flushErr : Bool) (bufferSize : ℕ)
    (s : CSVWriterState) : List Transaction → StreamEnd → CSVWriterState × Option String
  | [], StreamEnd.cancelled => csvFlush rowErr flushErr s
  | [], StreamEnd.closed => csvFlush rowErr flushErr s
  | t :: rest, e =>
    let s1 : CSVWriterState := { s with buffer := s.buffer ++ [t] }
    if bufferSize ≤ s1.buffer.length then
      match csvFlush rowErr flushErr s1 with
      | (s2, none) => csvWriteLoop rowErr flushErr bufferSize s2 rest e
      | (s2, some err) => (s2, some err)
    else csvWriteLoop rowErr flushErr bufferSize s1 rest e

/-! ParquetWriter (internal/writer/parquet.go): same loop shape with the
row-group size as threshold; flush performs one batched writer.Write that
either fails (writeErr) or reports the full batch written. -/

structure ParquetWriterState where
  buffer : List Transaction
  count : ℕ
deriving DecidableEq

/-- ParquetWriter.flush (parquet.go lines 91-104). -/
def parquetFlush (writeErr : Bool) (s : ParquetWriterState) :
    ParquetWriterState × Option String :=
  if s.buffer.length = 0 then (s, none)
  else if writeErr then (s, some "failed to write to Parquet")
  else ({ buffer := [], count := s.count + s.buffer.length }, none)

/-- ParquetWriter.Write (parquet.go lines 70-89): flushes on both the
cancellation and the channel-closed terminations. -/
def parquetWriteLoop (writeErr : Bool) (rowGroupSize : ℕ)
    (s : ParquetWriterState) : List Transaction → StreamEnd → ParquetWriterState × Option String
  | [], StreamEnd.cancelled => parquetFlush writeErr s
  | [], StreamEnd.closed => parquetFlush writeErr s
  | t :: rest, e =>
    let s1 : ParquetWriterState := { s with buffer := s.buffer ++ [t] }
    if rowGroupSize ≤ s1.buffer.length then
      match parquetFlush writeErr s1 with
      | (s2, none) => parquetWriteLoop writeErr rowGroupSize s2 rest e
      | (s2, some err) => (s2, some err)
    else parquetWriteLoop writeErr rowGroupSize s1 rest e

lemma csvWriteLoop_no_failure (bufferSize : ℕ) (inputs : List Transaction)
    (e : StreamEnd) (s : CSVWriterState) :
    (csvWriteLoop (fun _ => false) false bufferSize s inputs e).2 = none ∧
    (csvWriteLoop (fun _ => false) false bufferSize s inputs e).1.buffer = [] ∧
    (csvWriteLoop (fun _ => false) false bufferSize s inputs e).1.count
      = s.count + s.buffer.length + inputs.length := by
  induction inputs generalizing s with
  | nil =>
    cases e <;>
    · simp only [csvWriteLoop, csvFlush, List.any_eq_true, List.mem_range]
      by_cases hb : s.buffer.length = 0
      · rw [if_pos hb]
        refine ⟨rfl, ?_, by simp [hb]⟩
        simpa [List.length_eq_zero] using hb
      · rw [if_neg hb]
        simp
  | cons t rest ih =>
    simp only [csvWriteLoop]
    by_cases hfull : bufferSize ≤ (s.buffer ++ [t]).length
    · rw [if_pos hfull]
      have hflush : csvFlush (fun _ => false) false { s with buffer := s.buffer ++ [t] }
          = ({ buffer := [], count := s.count + (s.buffer ++ [t]).length }, none) := by
        unfold csvFlush
        by_cases hb : (s.buffer ++ [t]).length = 0
        · simp at hb
        · rw [if_neg hb]
          simp
      rw [hflush]
      have := ih { buffer := [], count := s.count + (s.buffer ++ [t]).length }
      simp only [List.length_append, List.length_cons, List.length_nil] at this ⊢
      refine ⟨this.1, this.2.1, ?_⟩
      rw [this.2.2]
      simp
      omega
    · rw [if_neg hfull]
      have := ih { s with buffer := s.buffer ++ [t] }
      simp only [List.length_append, List.length_cons, List.length_nil] at this ⊢
      refine ⟨this.1, this.2.1, ?_⟩
      rw [this.2.2]
      simp
      omega

lemma parquetWriteLoop_no_failure (rowGroupSize : ℕ) (inputs : List Transaction)
    (e : StreamEnd) (s : ParquetWriterState) :
    (parquetWriteLoop false rowGroupSize s inputs e).2 = none ∧
    (parquetWriteLoop false rowGroupSize s inputs e).1.buffer = [] ∧
    (parquetWriteLoop false rowGroupSize s inputs e).1.count
      = s.count + s.buffer.length + inputs.length := by
  induction inputs generalizing s with
  | nil =>
    cases e <;>
    · simp only [parquetWriteLoop, parquetFlush]
      by_cases hb : s.buffer.length = 0
      · rw [if_pos hb]
        refine ⟨rfl, ?_, by simp [hb]⟩
        simpa [List.length_eq_zero] using hb
      · rw [if_neg hb]
        simp
  | cons t rest ih =>
    simp only [parquetWriteLoop]
    by_cases hfull : rowGroupSize ≤ (s.buffer ++ [t]).length
    · rw [if_pos hfull]
      have hflush : parquetFlush false { s with buffer := s.buffer ++ [t] }
          = ({ buffer := [], count := s.count + (s.buffer ++ [t]).length }, none) := by
        unfold parquetFlush
        by_cases hb : (s.buffer ++ [t]).length = 0
        · simp at hb
        · rw [if_neg hb]
          simp
      rw [hflush]
      have := ih { buffer := [], count := s.count + (s.buffer ++ [t]).length }
      simp only [List.length_append, List.length_cons, List.length_nil] at this ⊢
      refine ⟨this.1, this.2.1, ?_⟩
      rw [this.2.2]
      simp
      omega
    · rw [if_neg hfull]
      have := ih { s with buffer := s.buffer ++ [t] }
      simp only [List.length_append, List.length_cons, List.length_nil] at this ⊢
      refine ⟨this.1, this.2.1, ?_⟩
      rw [this.2.2]
      simp
      omega

/-! KafkaWriter (internal/writer/kafka.go): Write serializes each record to
JSON and queues it asynchronously; handleResponses consumes the delivery
acknowledgment channels in the background. Serialization is injected as a
function returning the JSON payload or a failure. -/

structure KafkaWriterState where
  sent : List (String × String)
  errors : ℕ
deriving DecidableEq

/-- KafkaWriter.Write (kafka.go lines 97-131): a failed json.Marshal bumps
the error counter and continues with the next record; a successful one
queues (key = transaction id, value = payload). Both terminations return
nil without flushing anything here. -/
def kafkaWriteLoop (marshal : Transaction → Option String) :
    List Transaction → StreamEnd → KafkaWriterState → KafkaWriterState × Option String
  | [], StreamEnd.cancelled, s => (s, none)
  | [], StreamEnd.closed, s => (s, none)
  | t :: rest, e, s =>
    match marshal t with
    | none => kafkaWriteLoop marshal rest e { s with errors := s.errors + 1 }
    | some data => kafkaWriteLoop marshal rest e { s with sent := s.sent ++ [(t.id, data)] }

/-- A delivery acknowledgment from the broker client: a confirmed success
or an asynchronous delivery failure. -/
inductive AckEvent where
  | success
  | failure
deriving DecidableEq

/-- KafkaWriter.handleResponses (kafka.go lines 73-94): fold over the
acknowledgment stream, bumping the success count or the error count; it
never stops the stream on a failure. -/
def handleResponses : List AckEvent → ℕ × ℕ → ℕ × ℕ
  | [], c => c
  | AckEvent.success :: rest, (cnt, errs) => handleResponses rest (cnt + 1, errs)
  | AckEvent.failure :: rest, (cnt, errs) => handleResponses rest (cnt, errs + 1)

lemma kafkaWriteLoop_spec (marshal : Transaction → Option String)
    (inputs : List Transaction) (e : StreamEnd) (s : KafkaWriterState) :
    (kafkaWriteLoop marshal inputs e s).2 = none ∧
    (kafkaWriteLoop marshal inputs e s).1.sent
      = s.sent ++ inputs.filterMap (fun t => (marshal t).map (fun d => (t.id, d))) ∧
    (kafkaWriteLoop marshal inputs e s).1.errors
      = s.errors + (inputs.countP (fun t => (marshal t).isNone)) := by
  induction inputs generalizing s with
  | nil => cases e <;> simp [kafkaWriteLoop]
  | cons t rest ih =>
    cases hm : marshal t with
    | none =>
      have := ih { s with errors := s.errors + 1 }
      simp only [kafkaWriteLoop, hm] at this ⊢
      refine ⟨this.1, ?_, ?_⟩
      · rw [this.2.1]
        simp [List.filterMap_cons, hm]
      · rw [this.2.2]
        simp [List.countP_cons, hm]
        omega
    | some data =>
      have := ih { s with sent := s.sent ++ [(t.id, data)] }
      simp only [kafkaWriteLoop, hm] at this ⊢
      refine ⟨this.1, ?_, ?_⟩
      · rw [this.2.1]
        simp [List.filterMap_cons, hm]
      · rw [this.2.2]
        simp [List.countP_cons, hm]

lemma handleResponses_spec (acks : List AckEvent) (cnt errs : ℕ) :
    handleResponses acks (cnt, errs)
      = (cnt + acks.countP (fun a => a = AckEvent.success),
         errs + acks.countP (fun a => a = AckEvent.failure)) := by
  induction acks generalizing cnt errs with
  | nil => simp [handleResponses]
  | cons a rest ih =>
    cases a with
    | success =>
      rw [handleResponses, ih]
      simp [List.countP_cons]
      omega
    | failure =>
      rw [handleResponses, ih]
      simp [List.countP_cons]
      omega

/-! The sink fan-out of cmd/producer/main.go (lines 188-202 and 229-243):
each enabled sink spawns a forwarding goroutine that ranges over the one
shared txnChan. A Go channel delivers every sent value to exactly one
receiver, so a run nondeterministically assigns each record position to a
single forwarder; assign encodes that schedule (true sends the record at
the given position to the CSV forwarder, false to the Parquet one). -/

/-- The subsequence of the generated stream that reaches the CSV sink. -/
def csvShare (assign : ℕ → Bool) (txns : List Transaction) : List Transaction :=
  ((txns.enum).filter (fun p => assign p.1)).map Prod.snd

/-- The subsequence of the generated stream that reaches the Parquet sink. -/
def parquetShare (assign : ℕ → Bool) (txns : List Transaction) : List Transaction :=
  ((txns.enum).filter (fun p => !assign p.1)).map Prod.snd

lemma share_lengths (assign : ℕ → Bool) (txns : List Transaction) :
    (csvShare assign txns).length + (parquetShare assign txns).length = txns.length := by
  unfold csvShare parquetShare
  simp only [List.length_map]
  have h := List.length_eq_length_filter_add (l := txns.enum) (fun p => assign p.1)
  have h2 : (List.filter (fun x => !(fun p => assign p.1) x) txns.enum)
      = (List.filter (fun p => !assign p.1) txns.enum) := rfl
  rw [h2] at h
  rw [← h]
  exact List.enum_length

/-- Sample concrete record used to evaluate the writer models. -/
def sampleTxn : Transaction :=
  { id := "TXN-20260101-00000001"
    externalTransactionId := "EXT-PRAGMATIC-00000001"
    vendorBetId := "BET-00000001"
    roundId := "ROUND-00000000"
    vendorId := 1
    vendorCode := "PRAGMATIC"
    vendorLineId := 1
    gameCategoryId := 1
    houseId := 1
    masterAgentId := 1
    agentId := 1
    currencyId := 1
    currencyCode := "USD"
    betAmount := "10.000000"
    winAmount := "0.000000"
    winLoss := "-10.000000"
    settledAt := "2026-01-01T00:00:00Z" }

/-- C1: with both the CSV and the Parquet sink enabled, the forwarding
goroutines of main.go all receive from the one shared txnChan, so the N
generated records are split between the sinks: for every channel schedule
the two final counts sum to N instead of each equalling N. At the concrete
failing input N = 2 with an interleaved schedule, each sink counts 1, not
2 — refuting full duplication of the stream per sink. -/
theorem claim_c1_fanout_splits_stream :
    (∀ (assign : ℕ → Bool) (txns : List Transaction) (bufSize rgSize : ℕ) (e : StreamEnd),
      (csvWriteLoop (fun _ => false) false bufSize ⟨[], 0⟩ (csvShare assign txns) e).1.count
        + (parquetWriteLoop false rgSize ⟨[], 0⟩ (parquetShare assign txns) e).1.count
        = txns.length) ∧
    ((csvWriteLoop (fun _ => false) false 10000 ⟨[], 0⟩
        (csvShare (fun i => i % 2 == 0) [sampleTxn, sampleTxn]) StreamEnd.closed).1.count
      = 1 ∧
     (parquetWriteLoop false 10000 ⟨[], 0⟩
        (parquetShare (fun i => i % 2 == 0) [sampleTxn, sampleTxn]) StreamEnd.closed).1.count
      = 1) := by
  constructor
  · intro assign txns bufSize rgSize e
    have hc := csvWriteLoop_no_failure bufSize (csvShare assign txns) e ⟨[], 0⟩
    have hp := parquetWriteLoop_no_failure rgSize (parquetShare assign txns) e ⟨[], 0⟩
    rw [hc.2.2, hp.2.2]
    simp only [List.length_nil]
    have := share_lengths assign txns
    omega
  · exact ⟨rfl, rfl⟩

/-- C2: for every currency code, bet-amount menu index and win-multiplier
menu index, the three monetary fields rendered by StringFixed(6), read back
as exact decimals, satisfy win_loss = win_amount - bet_amount: the three
independent roundings never break the identity because every reachable
amount is already exact at six decimal places. -/
theorem claim_c2_win_loss_identity (code : String) (i : Fin 6) (m : Fin 10) :
    stringFixed6Micro (genWinLoss code i m)
      = stringFixed6Micro (genWinAmount code i m)
        - stringFixed6Micro (genBetAmount code i) := by
  unfold genWinLoss
  exact stringFixed6Micro_sub _ _ (genWinAmount_microInt code i m)
    (genBetAmount_microInt code i)

/-- C3: the bet amount is the selected base menu amount scaled per
currency: divided by 10000 for BTC, by 1000 for ETH, multiplied by 100 for
JPY, by 7 for CNY, and unscaled for every other currency code. -/
theorem claim_c3_currency_scaling (i : Fin 6) :
    genBetAmount "BTC" i = betAmounts i / 10000 ∧
    genBetAmount "ETH" i = betAmounts i / 1000 ∧
    genBetAmount "JPY" i = betAmounts i * 100 ∧
    genBetAmount "CNY" i = betAmounts i * 7 ∧
    ∀ code : String, code ≠ "BTC" → code ≠ "ETH" → code ≠ "JPY" → code ≠ "CNY" →
      genBetAmount code i = betAmounts i := by
  refine ⟨?_, ?_, ?_, ?_, ?_⟩
  · unfold genBetAmount scaleBet
    rw [if_pos rfl]
    exact decDiv_menu_btc i
  · unfold genBetAmount scaleBet
    rw [if_neg (by decide), if_pos rfl]
    exact decDiv_menu_eth i
  · unfold genBetAmount scaleBet
    rw [if_neg (by decide), if_neg (by decide), if_pos rfl]
  · unfold genBetAmount scaleBet
    rw [if_neg (by decide), if_neg (by decide), if_neg (by decide), if_pos rfl]
  · intro code h1 h2 h3 h4
    unfold genBetAmount scaleBet
    rw [if_neg h1, if_neg h2, if_neg h3, if_neg h4]

theorem claim_c3_currency_scaling_witness :
    genBetAmount "BTC" 0 = betAmounts 0 / 10000 ∧ genBetAmount "USD" 0 = betAmounts 0 :=
  ⟨(claim_c3_currency_scaling 0).1,
   (claim_c3_currency_scaling 0).2.2.2.2 "USD" (by decide) (by decide) (by decide)
     (by decide)⟩

/-- C4: two transactions carry the same ROUND-%08d round identifier
exactly when their sequence numbers agree after integer division by the
fixed round size 10. -/
theorem claim_c4_round_id_grouping (s1 s2 : ℕ) :
    roundIdDigits s1 = roundIdDigits s2 ↔ s1 / 10 = s2 / 10 := by
  constructor
  · intro h
    have h1 := congrArg (Nat.ofDigits 10) h
    unfold roundIdDigits at h1
    rw [ofDigits_pad8, ofDigits_pad8, Nat.ofDigits_digits, Nat.ofDigits_digits] at h1
    exact h1
  · intro h
    unfold roundIdDigits
    rw [h]

/-- C5: in a run of n records (n below 2^63, so the int64 counter cannot
wrap), the values handed out by the atomic sequence counter are strictly
increasing, and the internal IDs — the pair of the date part and the
%08d-rendered sequence number — are pairwise distinct for every assignment
of dates to records. -/
theorem claim_c5_sequence_counter_unique (n : ℕ) (h : n < 2^63) :
    List.Pairwise (· < ·) (seqTrace 0 n) ∧
    ∀ date : ℕ → String,
      (List.map (fun s => (date s, txnIdSeqField s)) (seqTrace 0 n)).Nodup := by
  have he : seqTrace 0 n = (List.range n).map (fun i => 0 + 1 + i) :=
    seqTrace_eq 0 n (by omega)
  constructor
  · rw [he, List.pairwise_map]
    refine (List.pairwise_lt_range n).imp ?_
    intro a b hab
    show 0 + 1 + a < 0 + 1 + b
    omega
  · intro date
    apply List.Nodup.map
    · intro a b hab
      have h2 : txnIdSeqField a = txnIdSeqField b := congrArg Prod.snd hab
      unfold txnIdSeqField at h2
      exact pad8_digits_injective h2
    · rw [he]
      refine List.Nodup.map ?_ (List.nodup_range n)
      intro a b hab
      have hab2 : 0 + 1 + a = 0 + 1 + b := hab
      omega

theorem claim_c5_sequence_counter_unique_witness :
    3 < 2^63 ∧
    (List.Pairwise (· < ·) (seqTrace 0 3) ∧
     ∀ date : ℕ → String,
       (List.map (fun s => (date s, txnIdSeqField s)) (seqTrace 0 3)).Nodup) :=
  ⟨by norm_num, claim_c5_sequence_counter_unique 3 (by norm_num)⟩

/-- C6: for every count and every positive worker number, Generate gives
each non-final worker a contiguous range of size count/workers, the final
worker absorbs the remainder, the concatenation of all worker ranges is
exactly the index interval [0, count) — so without cancellation exactly
count transactions are emitted — and the single close of the output
channel comes after every emission. -/
theorem claim_c6_generate_partition (count workers : ℕ) (h : 1 ≤ workers) :
    (∀ i, i + 1 < workers →
      workerEnd count workers i - workerStart count workers i = count / workers) ∧
    (workerEnd count workers (workers - 1) - workerStart count workers (workers - 1)
      = count / workers + count % workers) ∧
    generateEmits count workers = List.range count ∧
    (generateEmits count workers).length = count ∧
    generateEvents count workers
      = (List.range count).map GenEvent.emit ++ [GenEvent.closeOut] := by
  refine ⟨?_, ?_, generateEmits_eq count workers h, ?_, ?_⟩
  · intro i hi
    unfold workerEnd workerStart
    rw [if_neg (by omega)]
    exact Nat.add_sub_cancel_left _ _
  · unfold workerEnd workerStart
    rw [if_pos rfl]
    obtain ⟨w, rfl⟩ : ∃ w, workers = w + 1 := ⟨workers - 1, by omega⟩
    simp only [Nat.add_sub_cancel]
    have h1 := Nat.div_add_mod count (w + 1)
    have h2 : (w + 1) * (count / (w + 1))
        = w * (count / (w + 1)) + count / (w + 1) := by ring
    rw [h2] at h1
    revert h1
    generalize w * (count / (w + 1)) = x
    generalize count / (w + 1) = q
    generalize count % (w + 1) = r
    intro h1
    omega
  · rw [generateEmits_eq count workers h]
    exact List.length_range count
  · unfold generateEvents
    rw [generateEmits_eq count workers h]

theorem claim_c6_generate_partition_witness :
    1 ≤ 3 ∧
    ((∀ i, i + 1 < 3 → workerEnd 10 3 i - workerStart 10 3 i = 10 / 3) ∧
     (workerEnd 10 3 (3 - 1) - workerStart 10 3 (3 - 1) = 10 / 3 + 10 % 3) ∧
     generateEmits 10 3 = List.range 10 ∧
     (generateEmits 10 3).length = 10 ∧
     generateEvents 10 3 = (List.range 10).map GenEvent.emit ++ [GenEvent.closeOut]) :=
  ⟨by decide, claim_c6_generate_partition 10 3 (by decide)⟩

/-- C7 counterexample: the claim that Generate fails with an error when
cancelled before the requested count is produced is false: at count = 10
with one worker cancelled after three emissions, fewer than ten records
are emitted yet the returned error is nil (producer.go line 199 returns
nil unconditionally). -/
theorem claim_c7_counterexample :
    (generateRunCancelled 10 1 (fun _ => 3)).1.length < 10 ∧
    (generateRunCancelled 10 1 (fun _ => 3)).2 = none := by
  constructor
  · decide
  · rfl

/-- C7 amended: Generate never reports an error — on cancellation it
returns nil like on success; cancellation only makes each worker stop
before its next emission, so at most count transactions are emitted. -/
theorem claim_c7_generate_returns_nil (count workers : ℕ) (cancelAt : ℕ → ℕ)
    (h : 1 ≤ workers) :
    (generateRunCancelled count workers cancelAt).2 = none ∧
    (generateRunCancelled count workers cancelAt).1.length ≤ count := by
  refine ⟨rfl, ?_⟩
  unfold generateRunCancelled
  simp only
  have hlen : ((List.range workers).flatMap
        (fun i => (workerRange count workers i).take (cancelAt i))).length
      ≤ ((List.range workers).flatMap (workerRange count workers)).length := by
    rw [List.length_flatMap, List.length_flatMap]
    apply List.sum_le_sum
    intro i hi
    simp only [Function.comp]
    rw [List.length_take]
    exact min_le_right _ _
  calc ((List.range workers).flatMap
        (fun i => (workerRange count workers i).take (cancelAt i))).length
      ≤ ((List.range workers).flatMap (workerRange count workers)).length := hlen
    _ = (generateEmits count workers).length := rfl
    _ = (List.range count).length := by rw [generateEmits_eq count workers h]
    _ = count := List.length_range count

theorem claim_c7_generate_returns_nil_witness :
    1 ≤ 2 ∧
    ((generateRunCancelled 10 2 (fun _ => 1)).2 = none ∧
     (generateRunCancelled 10 2 (fun _ => 1)).1.length ≤ 10) :=
  ⟨by decide, claim_c7_generate_returns_nil 10 2 (fun _ => 1) (by decide)⟩

/-- C8: for every buffer size, input stream and termination kind — channel
closed or context cancelled — the CSV and the Parquet write loops flush
whatever remains buffered before returning: on a failure-free shutdown the
final buffer is empty, no error is reported, and each sink's count equals
the number of records it accepted. -/
theorem claim_c8_flush_on_stream_end (bufferSize rowGroupSize : ℕ)
    (inputs : List Transaction) (e : StreamEnd) :
    (csvWriteLoop (fun _ => false) false bufferSize ⟨[], 0⟩ inputs e).2 = none ∧
    (csvWriteLoop (fun _ => false) false bufferSize ⟨[], 0⟩ inputs e).1.buffer = [] ∧
    (csvWriteLoop (fun _ => false) false bufferSize ⟨[], 0⟩ inputs e).1.count
      = inputs.length ∧
    (parquetWriteLoop false rowGroupSize ⟨[], 0⟩ inputs e).2 = none ∧
    (parquetWriteLoop false rowGroupSize ⟨[], 0⟩ inputs e).1.buffer = [] ∧
    (parquetWriteLoop false rowGroupSize ⟨[], 0⟩ inputs e).1.count = inputs.length := by
  have hc := csvWriteLoop_no_failure bufferSize inputs e ⟨[], 0⟩
  have hp := parquetWriteLoop_no_failure rowGroupSize inputs e ⟨[], 0⟩
  refine ⟨hc.1, hc.2.1, ?_, hp.1, hp.2.1, ?_⟩
  · rw [hc.2.2]
    simp
  · rw [hp.2.2]
    simp

/-- C9: at the Kafka sink, a record that fails serialization only bumps the
error counter and is skipped — every serializable record is still queued in
order and the write loop returns nil — and the background acknowledgment
handler processes the whole delivery stream, bumping the success counter on
confirmations and only the error counter on delivery failures. -/
theorem claim_c9_kafka_error_isolation (marshal : Transaction → Option String)
    (inputs : List Transaction) (e : StreamEnd) (acks : List AckEvent) (cnt errs : ℕ) :
    (kafkaWriteLoop marshal inputs e ⟨[], 0⟩).2 = none ∧
    (kafkaWriteLoop marshal inputs e ⟨[], 0⟩).1.sent
      = inputs.filterMap (fun t => (marshal t).map (fun d => (t.id, d))) ∧
    (kafkaWriteLoop marshal inputs e ⟨[], 0⟩).1.errors
      = inputs.countP (fun t => (marshal t).isNone) ∧
    handleResponses acks (cnt, errs)
      = (cnt + acks.countP (fun a => a = AckEvent.success),
         errs + acks.countP (fun a => a = AckEvent.failure)) := by
  have hk := kafkaWriteLoop_spec marshal inputs e ⟨[], 0⟩
  refine ⟨hk.1, ?_, ?_, handleResponses_spec acks cnt errs⟩
  · rw [hk.2.1]
    simp
  · rw [hk.2.2]
    simp

/-- C10: CSVWriter.flush leaves the count untouched whenever it returns an
error — a row write failure or a flush failure — and increments it by
exactly the batch size, emptying the buffer, only on full success; so the
reported count is a sum of fully flushed batch sizes. -/
theorem claim_c10_csv_count_only_on_success (rowErr : ℕ → Bool) (flushErr : Bool)
    (s : CSVWriterState) :
    ((csvFlush rowErr flushErr s).2 ≠ none →
      (csvFlush rowErr flushErr s).1.count = s.count ∧
      (csvFlush rowErr flushErr s).1.buffer = s.buffer) ∧
    ((csvFlush rowErr flushErr s).2 = none →
      (csvFlush rowErr flushErr s).1.count = s.count + s.buffer.length ∧
      (csvFlush rowErr flushErr s).1.buffer = []) := by
  unfold csvFlush
  by_cases h0 : s.buffer.length = 0
  · rw [if_pos h0]
    exact ⟨fun hne => absurd rfl hne,
      fun _ => ⟨by simp [h0], List.length_eq_zero.mp h0⟩⟩
  · rw [if_neg h0]
    by_cases h1 : (List.range s.buffer.length).any rowErr = true
    · rw [if_pos h1]
      exact ⟨fun _ => ⟨rfl, rfl⟩, fun heq => by simp at heq⟩
    · rw [if_neg h1]
      by_cases h2 : flushErr = true
      · rw [if_pos h2]
        exact ⟨fun _ => ⟨rfl, rfl⟩, fun heq => by simp at heq⟩
      · rw [if_neg h2]
        exact ⟨fun hne => absurd rfl hne, fun _ => ⟨rfl, rfl⟩⟩

theorem claim_c10_csv_count_only_on_success_witness :
    ((csvFlush (fun _ => true) false ⟨[sampleTxn], 5⟩).2 ≠ none ∧
     (csvFlush (fun _ => true) false ⟨[sampleTxn], 5⟩).1.count = 5) ∧
    ((csvFlush (fun _ => false) false ⟨[sampleTxn], 5⟩).2 = none ∧
     (csvFlush (fun _ => false) false ⟨[sampleTxn], 5⟩).1.count = 6) := by
  constructor
  · have hne : (csvFlush (fun _ => true) false ⟨[sampleTxn], 5⟩).2 ≠ none := by
      simp [csvFlush]
    exact ⟨hne,
      ((claim_c10_csv_count_only_on_success (fun _ => true) false ⟨[sampleTxn], 5⟩).1
        hne).1⟩
  · have heq : (csvFlush (fun _ => false) false ⟨[sampleTxn], 5⟩).2 = none := by
      simp [csvFlush]
    exact ⟨heq,
      ((claim_c10_csv_count_only_on_success (fun _ => false) false ⟨[sampleTxn], 5⟩).2
        heq).1⟩

end MessageProducer
